import Mathlib

/-!
# libnds: timer and sound register headers

A shallow embedding of `include/nds/timers.h` and `include/nds/arm7/audio.h`.

* C `int` values are mathematical integers (`Int`); the two ways an `int`
  division can be undefined (division by zero, `INT_MIN / -1`) make `cdiv`
  return `none`.
* A conversion to `u16` is reduction modulo `2 ^ 16`.
* `>>` on a negative `int` is the arithmetic shift the ARM compilers emit
  (`Int.shiftRight`, rounding toward minus infinity).
* The memory-mapped registers live in a byte-addressed little-endian memory;
  a `vuint16` access reads or writes two consecutive bytes.
-/

namespace Libnds

/-! ## C integer arithmetic -/

/-- Smallest value of a 32-bit C `int`. -/
def INT_MIN : Int := -2147483648

/-- Largest value of a 32-bit C `int`. -/
def INT_MAX : Int := 2147483647

/-- C `a / b` on `int`: undefined when `b = 0` or when the quotient
overflows (`INT_MIN / -1`), otherwise the quotient truncated toward zero. -/
def cdiv (a b : Int) : Option Int :=
  if b = 0 ∨ (a = INT_MIN ∧ b = -1) then none else some (a.tdiv b)

/-- Conversion of an `int` to `u16`: the value modulo `2 ^ 16`. -/
def toU16 (x : Int) : Nat := (x % 65536).toNat

/-! ## timers.h: the clock dividers -/

/-- The enum `ClockDivider` of timers.h. -/
inductive ClockDivider where
  | ClockDivider_1
  | ClockDivider_64
  | ClockDivider_256
  | ClockDivider_1024
  deriving DecidableEq

/-! ## timers.h: frequency to reload value -/

/-- Source: `static inline u16 timerFreqToTicks_1(int freq) {return -0x2000000 / freq;}` -/
def timerFreqToTicks_1 (freq : Int) : Option Nat :=
  (cdiv (-0x2000000) freq).map toU16

/-- Source: `static inline u16 timerFreqToTicks_64(int freq) {return (-0x2000000 >> 6) / freq;}` -/
def timerFreqToTicks_64 (freq : Int) : Option Nat :=
  (cdiv (Int.shiftRight (-0x2000000) 6) freq).map toU16

/-- Source: `static inline u16 timerFreqToTicks_256(int freq) {return (-0x2000000 >> 8) / freq;}` -/
def timerFreqToTicks_256 (freq : Int) : Option Nat :=
  (cdiv (Int.shiftRight (-0x2000000) 8) freq).map toU16

/-- Source: `static inline u16 timerFreqToTicks_1024(int freq) {return (-0x2000000 >> 10) / freq;}` -/
def timerFreqToTicks_1024 (freq : Int) : Option Nat :=
  (cdiv (Int.shiftRight (-0x2000000) 10) freq).map toU16

/-- Source: `#define TIMER_FREQ(n)    (-0x2000000/(n))` -/
def TIMER_FREQ (n : Int) : Option Int := cdiv (-0x2000000) n

/-- Source: `#define TIMER_FREQ_64(n)  (-(0x2000000>>6)/(n))` -/
def TIMER_FREQ_64 (n : Int) : Option Int := cdiv (-(Int.shiftRight 0x2000000 6)) n

/-- Source: `#define TIMER_FREQ_256(n) (-(0x2000000>>8)/(n))` -/
def TIMER_FREQ_256 (n : Int) : Option Int := cdiv (-(Int.shiftRight 0x2000000 8)) n

/-- Source: `#define TIMER_FREQ_1024(n) (-(0x2000000>>10)/(n))` -/
def TIMER_FREQ_1024 (n : Int) : Option Int := cdiv (-(Int.shiftRight 0x2000000 10)) n

/-! ### Per-divider view used to state the properties -/

/-- The conversion function of timers.h that belongs to a divider. -/
def ticksOf : ClockDivider → Int → Option Nat
  | .ClockDivider_1 => timerFreqToTicks_1
  | .ClockDivider_64 => timerFreqToTicks_64
  | .ClockDivider_256 => timerFreqToTicks_256
  | .ClockDivider_1024 => timerFreqToTicks_1024

/-- The macro of timers.h that belongs to a divider. -/
def macroOf : ClockDivider → Int → Option Int
  | .ClockDivider_1 => TIMER_FREQ
  | .ClockDivider_64 => TIMER_FREQ_64
  | .ClockDivider_256 => TIMER_FREQ_256
  | .ClockDivider_1024 => TIMER_FREQ_1024

/-- The division factor of a divider (1, 64, 256, 1024). -/
def factor : ClockDivider → Int
  | .ClockDivider_1 => 1
  | .ClockDivider_64 => 64
  | .ClockDivider_256 => 256
  | .ClockDivider_1024 => 1024

/-- The base `0x2000000 >> k` of a divider, as the hexadecimal constants
`0x2000000`, `0x80000`, `0x20000`, `0x8000`. -/
def base : ClockDivider → Int
  | .ClockDivider_1 => 0x2000000
  | .ClockDivider_64 => 0x80000
  | .ClockDivider_256 => 0x20000
  | .ClockDivider_1024 => 0x8000

/-- Documented minimum frequency of a divider (`Min frequency is:` in the
comments of `TIMER_FREQ*`; 1 Hz is the smallest positive integer frequency for
the divider 1024, documented as 0.5 Hz). -/
def minFreq : ClockDivider → Int
  | .ClockDivider_1 => 512
  | .ClockDivider_64 => 8
  | .ClockDivider_256 => 2
  | .ClockDivider_1024 => 1

/-- Documented maximum frequency of a divider (`Max frequency is:` in the
comments of `TIMER_FREQ*`). -/
def maxFreq : ClockDivider → Int
  | .ClockDivider_1 => 33554432
  | .ClockDivider_64 => 524288
  | .ClockDivider_256 => 131072
  | .ClockDivider_1024 => 32768

/-! ## timers.h: the timer registers -/

/-- Byte-addressed memory holding the memory-mapped registers. -/
abbrev Mem := Nat → Fin 256

/-- Read of a `vuint16` at byte address `a` (little-endian). -/
def load16 (m : Mem) (a : Nat) : Nat := (m a).val + 256 * (m (a + 1)).val

/-- Write of a value to a `vuint16` at byte address `a`: the value is
converted to 16 bits, its low byte goes to `a` and its high byte to `a + 1`. -/
def store16 (m : Mem) (a v : Nat) : Mem := fun x =>
  if x = a then ⟨v % 256, Nat.mod_lt _ (by decide)⟩
  else if x = a + 1 then ⟨v / 256 % 256, Nat.mod_lt _ (by decide)⟩
  else m x

/-- A memory with every byte zero. -/
def zeroMem : Mem := fun _ => 0

/-- Address of `#define TIMER0_DATA    (*(vuint16*)0x04000100)` -/
def TIMER0_DATA : Nat := 0x04000100

/-- Address of `#define TIMER1_DATA    (*(vuint16*)0x04000104)` -/
def TIMER1_DATA : Nat := 0x04000104

/-- Address of `#define TIMER2_DATA    (*(vuint16*)0x04000108)` -/
def TIMER2_DATA : Nat := 0x04000108

/-- Address of `#define TIMER3_DATA    (*(vuint16*)0x0400010C)` -/
def TIMER3_DATA : Nat := 0x0400010C

/-- Address of `#define TIMER_DATA(n)  (*(vuint16*)(0x04000100+((n)<<2)))` -/
def TIMER_DATA (n : Nat) : Nat := 0x04000100 + (n <<< 2)

/-- Address of `#define TIMER0_CR   (*(vuint16*)0x04000102)` -/
def TIMER0_CR : Nat := 0x04000102

/-- Address of `#define TIMER1_CR   (*(vuint16*)0x04000106)` -/
def TIMER1_CR : Nat := 0x04000106

/-- Address of `#define TIMER2_CR   (*(vuint16*)0x0400010A)` -/
def TIMER2_CR : Nat := 0x0400010A

/-- Address of `#define TIMER3_CR   (*(vuint16*)0x0400010E)` -/
def TIMER3_CR : Nat := 0x0400010E

/-- Address of `#define TIMER_CR(n) (*(vuint16*)(0x04000102+((n)<<2)))` -/
def TIMER_CR (n : Nat) : Nat := 0x04000102 + (n <<< 2)

/-- Source: `#define TIMER_ENABLE    (1<<7)` -/
def TIMER_ENABLE : Nat := 1 <<< 7

/-- Source: `#define TIMER_IRQ_REQ   (1<<6)` -/
def TIMER_IRQ_REQ : Nat := 1 <<< 6

/-- Source: `#define TIMER_CASCADE   (1<<2)` -/
def TIMER_CASCADE : Nat := 1 <<< 2

/-- Source: `#define TIMER_DIV_1     (0)` -/
def TIMER_DIV_1 : Nat := 0

/-- Source: `#define TIMER_DIV_64    (1)` -/
def TIMER_DIV_64 : Nat := 1

/-- Source: `#define TIMER_DIV_256   (2)` -/
def TIMER_DIV_256 : Nat := 2

/-- Source: `#define TIMER_DIV_1024  (3)` -/
def TIMER_DIV_1024 : Nat := 3

/-- C `~x` on a 32-bit `int`, as a bit pattern: every one of the 32 bits
flipped. -/
def not32 (x : Nat) : Nat := 4294967295 - x % 4294967296

/-- Source: `static inline void timerStop(int channel){TIMER_CR(channel) &= ~TIMER_ENABLE;}`:
the register is read, promoted to `int`, masked, and written back as 16 bits. -/
def timerStop (m : Mem) (channel : Nat) : Mem :=
  store16 m (TIMER_CR channel) (load16 m (TIMER_CR channel) &&& not32 TIMER_ENABLE)

/-- Source: `static inline void timerStart(int channel){TIMER_CR(channel) |= TIMER_ENABLE;}`:
the register is read, promoted to `int`, or-ed with the flag, and written back
as 16 bits. The channel is a non-negative `int`. -/
def timerStart (m : Mem) (channel : Nat) : Mem :=
  store16 m (TIMER_CR channel) (load16 m (TIMER_CR channel) ||| TIMER_ENABLE)

/-- Two 16-bit registers at byte addresses `a` and `b` occupy disjoint byte
ranges `[a, a + 2)` and `[b, b + 2)`. -/
def disjoint16 (a b : Nat) : Prop := a + 2 ≤ b ∨ b + 2 ≤ a

instance (a b : Nat) : Decidable (disjoint16 a b) := by
  unfold disjoint16; infer_instance

/-- The magnitude of a reload value read as a 16-bit two's-complement
countdown: `(65536 - r) mod 65536`. -/
def magnitude (r : Nat) : Nat := (65536 - r) % 65536

/-! ## arm7/audio.h: the channel control word -/

/-- Modelled from the spec: the macro `BIT` of `nds/ndstypes.h`, which is not
among the sources; `BIT(k) = 1 << k`, here as a bit pattern. -/
def BIT (n : Nat) : Nat := 1 <<< n

/-- Source: `#define SOUND_VOL(n)	(n)` -/
def SOUND_VOL (n : Nat) : Nat := n

/-- Source: `#define SOUND_ENABLE	BIT(15)` -/
def SOUND_ENABLE : Nat := BIT 15

/-- Source: `#define SOUND_REPEAT    BIT(27)` -/
def SOUND_REPEAT : Nat := BIT 27

/-- Source: `#define SOUND_ONE_SHOT  BIT(28)` -/
def SOUND_ONE_SHOT : Nat := BIT 28

/-- Source: `#define SOUND_16BIT      BIT(29)` -/
def SOUND_16BIT : Nat := BIT 29

/-- Source: `#define SOUND_8BIT       (0)` -/
def SOUND_8BIT : Nat := 0

/-- Source: `#define SOUND_PAN(n)	((n) << 16)` -/
def SOUND_PAN (n : Nat) : Nat := n <<< 16

/-- Source: `#define SCHANNEL_ENABLE BIT(31)` -/
def SCHANNEL_ENABLE : Nat := BIT 31

/-- The word `SCHANNEL_ENABLE | SOUND_16BIT | SOUND_ONE_SHOT | SOUND_VOL(v) | SOUND_PAN(p)`
written to `SCHANNEL_CR(n)`, as a bit pattern. -/
def controlWord (v p : Nat) : Nat :=
  SCHANNEL_ENABLE ||| SOUND_16BIT ||| SOUND_ONE_SHOT ||| SOUND_VOL v ||| SOUND_PAN p

/-! ## Helper lemmas on the conversions -/

theorem cdiv_neg_pos (B f : Int) (hB : 0 ≤ B) (hB2 : B < 2147483648) (hf : 0 < f) :
    cdiv (-B) f = some (-(B / f)) := by
  unfold cdiv INT_MIN
  have h1 : ¬ (f = 0 ∨ (-B = -2147483648 ∧ f = -1)) := by omega
  rw [if_neg h1, Int.neg_tdiv, Int.tdiv_eq_ediv hB (le_of_lt hf)]

theorem ticksOf_pos (d : ClockDivider) (f : Int) (hf : 0 < f) :
    ticksOf d f = some (toU16 (-(base d / f))) := by
  cases d
  · show (cdiv (-0x2000000) f).map toU16 = _
    rw [cdiv_neg_pos 0x2000000 f (by decide) (by decide) hf]; rfl
  · show (cdiv (Int.shiftRight (-0x2000000) 6) f).map toU16 = _
    have : Int.shiftRight (-0x2000000) 6 = -0x80000 := by decide
    rw [this, cdiv_neg_pos 0x80000 f (by decide) (by decide) hf]; rfl
  · show (cdiv (Int.shiftRight (-0x2000000) 8) f).map toU16 = _
    have : Int.shiftRight (-0x2000000) 8 = -0x20000 := by decide
    rw [this, cdiv_neg_pos 0x20000 f (by decide) (by decide) hf]; rfl
  · show (cdiv (Int.shiftRight (-0x2000000) 10) f).map toU16 = _
    have : Int.shiftRight (-0x2000000) 10 = -0x8000 := by decide
    rw [this, cdiv_neg_pos 0x8000 f (by decide) (by decide) hf]; rfl

theorem div_antitone (B f1 f2 : Int) (hB : 0 ≤ B) (h1 : 0 < f1) (h12 : f1 ≤ f2) :
    B / f2 ≤ B / f1 := by
  have hq : 0 ≤ B / f1 := Int.ediv_nonneg hB (le_of_lt h1)
  have hlt : B < (B / f1 + 1) * f1 := by
    have := Int.lt_ediv_add_one_mul_self B h1
    linarith
  have hle : (B / f1 + 1) * f1 ≤ (B / f1 + 1) * f2 :=
    mul_le_mul_of_nonneg_left h12 (by linarith)
  have : B / f2 < B / f1 + 1 :=
    Int.ediv_lt_of_lt_mul (lt_of_lt_of_le h1 h12) (lt_of_lt_of_le hlt hle)
  linarith

theorem div_div_div (B f : Int) (hB : 0 ≤ B) (hf : 0 < f) (hq : 0 < B / f) :
    f ≤ B / (B / f) ∧ B / (B / (B / f)) = B / f := by
  have hfle : f ≤ B / (B / f) := by
    apply Int.le_ediv_of_mul_le hq
    have := Int.ediv_mul_le B (ne_of_gt hf)
    linarith [mul_comm f (B / f)]
  refine ⟨hfle, le_antisymm (div_antitone B f _ hB hf hfle) ?_⟩
  apply Int.le_ediv_of_mul_le (lt_of_lt_of_le hf hfle)
  have := Int.ediv_mul_le B (ne_of_gt hq)
  linarith [mul_comm (B / f) (B / (B / f))]

theorem int_div_div (a b c : Int) (ha : 0 ≤ a) (hb : 0 ≤ b) (hc : 0 ≤ c) :
    a / b / c = a / (b * c) := by
  lift a to ℕ using ha
  lift b to ℕ using hb
  lift c to ℕ using hc
  norm_cast
  exact Nat.div_div_eq_div_mul _ _ _

theorem minFreq_pos (d : ClockDivider) : 0 < minFreq d := by
  cases d <;> decide

theorem base_nonneg (d : ClockDivider) : 0 ≤ base d := by
  cases d <;> decide

theorem quot_bounds (d : ClockDivider) (f : Int) (hlo : minFreq d ≤ f)
    (hhi : f ≤ maxFreq d) : 1 ≤ base d / f ∧ base d / f ≤ 65536 := by
  have hf : 0 < f := lt_of_lt_of_le (minFreq_pos d) hlo
  constructor
  · apply Int.le_ediv_of_mul_le hf
    cases d <;> simp only [base, maxFreq] at * <;> omega
  · apply Int.ediv_le_of_le_mul hf
    cases d <;> simp only [base, minFreq] at * <;> omega

/-! ## Helper lemmas on the registers -/

theorem load16_lt (m : Mem) (a : Nat) : load16 m a < 65536 := by
  unfold load16
  have h1 := (m a).isLt
  have h2 := (m (a + 1)).isLt
  omega

theorem load16_store16 (m : Mem) (a v : Nat) : load16 (store16 m a v) a = v % 65536 := by
  unfold load16 store16
  have h : a + 1 ≠ a := by omega
  simp only [if_true, if_neg h]
  omega

theorem load16_store16_other (m : Mem) (a b v : Nat) (h : disjoint16 a b) :
    load16 (store16 m a v) b = load16 m b := by
  unfold disjoint16 at h
  unfold load16 store16
  have h1 : b ≠ a := by omega
  have h2 : b ≠ a + 1 := by omega
  have h3 : b + 1 ≠ a := by omega
  have h4 : b + 1 ≠ a + 1 := by omega
  simp only [if_neg h1, if_neg h2, if_neg h3, if_neg h4]

theorem store16_store16 (m : Mem) (a v w : Nat) :
    store16 (store16 m a v) a w = store16 m a w := by
  funext x
  unfold store16
  by_cases h1 : x = a
  · simp only [if_pos h1]
  · by_cases h2 : x = a + 1
    · simp only [if_neg h1, if_pos h2]
    · simp only [if_neg h1, if_neg h2]

theorem store16_load16 (m : Mem) (a : Nat) : store16 m a (load16 m a) = m := by
  funext x
  unfold store16 load16
  have h1 := (m a).isLt
  have h2 := (m (a + 1)).isLt
  by_cases hx : x = a
  · subst hx
    simp only [if_true]
    apply Fin.ext
    show ((m x).val + 256 * (m (x + 1)).val) % 256 = (m x).val
    omega
  · by_cases hx2 : x = a + 1
    · subst hx2
      simp only [if_neg hx, if_true]
      apply Fin.ext
      show ((m a).val + 256 * (m (a + 1)).val) / 256 % 256 = (m (a + 1)).val
      omega
    · simp only [if_neg hx, if_neg hx2]

theorem TIMER_ENABLE_eq : TIMER_ENABLE = 2 ^ 7 := by decide

theorem not32_TIMER_ENABLE_eq : not32 TIMER_ENABLE = 2 ^ 32 - (2 ^ 7 + 1) := by decide

theorem testBit_of_lt_65536 (x i : Nat) (hx : x < 65536) (hi : 16 ≤ i) :
    x.testBit i = false := by
  apply Nat.testBit_lt_two_pow
  calc x < 2 ^ 16 := hx
    _ ≤ 2 ^ i := Nat.pow_le_pow_right (by decide) hi

theorem or_enable_testBit (x i : Nat) :
    (x ||| TIMER_ENABLE).testBit i = (x.testBit i || decide (i = 7)) := by
  rw [TIMER_ENABLE_eq, Nat.testBit_or, Nat.testBit_two_pow]
  by_cases h : i = 7
  · subst h; simp
  · have h2 : ¬ (7 = i) := fun e => h e.symm
    simp [h, h2]

theorem and_mask_testBit (x i : Nat) (hx : x < 65536) :
    (x &&& not32 TIMER_ENABLE).testBit i = (x.testBit i && decide (i ≠ 7)) := by
  rw [not32_TIMER_ENABLE_eq, Nat.testBit_and,
    Nat.testBit_two_pow_sub_succ (by decide : 2 ^ 7 < 2 ^ 32), Nat.testBit_two_pow]
  by_cases h16 : 16 ≤ i
  · simp [testBit_of_lt_65536 x i hx h16]
  · have h32 : i < 32 := by omega
    by_cases h : i = 7
    · subst h; simp
    · have h2 : ¬ (7 = i) := fun e => h e.symm
      simp [h, h2, h32]

theorem or_enable_lt (x : Nat) (hx : x < 65536) : x ||| TIMER_ENABLE < 65536 :=
  Nat.or_lt_two_pow (n := 16) hx (by decide)

theorem and_mask_lt (x : Nat) (hx : x < 65536) : x &&& not32 TIMER_ENABLE < 65536 :=
  lt_of_le_of_lt Nat.and_le_left hx

theorem cr_read_after_start (m : Mem) (c : Nat) :
    load16 (timerStart m c) (TIMER_CR c) = load16 m (TIMER_CR c) ||| TIMER_ENABLE := by
  unfold timerStart
  rw [load16_store16, Nat.mod_eq_of_lt (or_enable_lt _ (load16_lt m _))]

theorem cr_read_after_stop (m : Mem) (c : Nat) :
    load16 (timerStop m c) (TIMER_CR c) = load16 m (TIMER_CR c) &&& not32 TIMER_ENABLE := by
  unfold timerStop
  rw [load16_store16, Nat.mod_eq_of_lt (and_mask_lt _ (load16_lt m _))]

theorem store16_frame (m : Mem) (a v x : Nat) (h1 : x ≠ a) (h2 : x ≠ a + 1) :
    store16 m a v x = m x := by
  unfold store16
  simp only [if_neg h1, if_neg h2]

theorem cr_disjoint_data (c k : Nat) : disjoint16 (TIMER_CR c) (TIMER_DATA k) := by
  unfold disjoint16 TIMER_CR TIMER_DATA
  simp only [Nat.shiftLeft_eq]
  omega

theorem cr_disjoint_cr (c k : Nat) (h : k ≠ c) : disjoint16 (TIMER_CR c) (TIMER_CR k) := by
  unfold disjoint16 TIMER_CR
  simp only [Nat.shiftLeft_eq]
  omega

theorem data_disjoint_data (c k : Nat) (h : k ≠ c) :
    disjoint16 (TIMER_DATA c) (TIMER_DATA k) := by
  unfold disjoint16 TIMER_DATA
  simp only [Nat.shiftLeft_eq]
  omega

theorem data_disjoint_cr (c k : Nat) : disjoint16 (TIMER_DATA c) (TIMER_CR k) := by
  unfold disjoint16 TIMER_CR TIMER_DATA
  simp only [Nat.shiftLeft_eq]
  omega

/-! ## Helper lemmas on the channel control word -/

theorem and_eq_zero_of_lt (a c k : Nat) (ha : a < 2 ^ k) : a &&& (2 ^ k * c) = 0 := by
  apply Nat.eq_of_testBit_eq
  intro i
  rw [Nat.testBit_and, Nat.testBit_mul_pow_two, Nat.zero_testBit]
  by_cases h : k ≤ i
  · have hi : a.testBit i = false :=
      Nat.testBit_lt_two_pow (lt_of_lt_of_le ha (Nat.pow_le_pow_right (by decide) h))
    simp [hi]
  · simp [h]

theorem or_fields_eq_sum (v p : Nat) (hv : v ≤ 127) (hp : p ≤ 127) :
    SCHANNEL_ENABLE ||| SOUND_16BIT ||| SOUND_ONE_SHOT ||| SOUND_VOL v ||| SOUND_PAN p
      = 2952790016 + v + 65536 * p := by
  have e1 : SCHANNEL_ENABLE ||| SOUND_16BIT ||| SOUND_ONE_SHOT = 2 ^ 28 * 11 := by decide
  have e2 : SOUND_PAN p = 2 ^ 16 * p := by
    unfold SOUND_PAN; rw [Nat.shiftLeft_eq, Nat.mul_comm]
  have e3 : 2 ^ 28 * 11 ||| 2 ^ 16 * p = 2 ^ 28 * 11 + 2 ^ 16 * p :=
    (Nat.mul_add_lt_is_or (show 2 ^ 16 * p < 2 ^ 28 by omega) 11).symm
  have e4 : 2 ^ 28 * 11 + 2 ^ 16 * p = 2 ^ 16 * (45056 + p) := by omega
  have e5 : 2 ^ 16 * (45056 + p) ||| v = 2 ^ 16 * (45056 + p) + v :=
    (Nat.mul_add_lt_is_or (show v < 2 ^ 16 by omega) _).symm
  rw [e1, e2]
  show 2 ^ 28 * 11 ||| v ||| 2 ^ 16 * p = _
  rw [Nat.or_assoc, Nat.or_comm v, ← Nat.or_assoc, e3, e4, e5]
  omega

/-! ## Frequency conversions: the properties -/

/-- C1: inside the documented range of a divider the returned reload value `r`
encodes exactly `B / f` ticks until overflow: the conversion returns, `r` is a
16-bit value, `1 ≤ B / f ≤ 65536` and `(r + B / f) mod 65536 = 0`, with `B / f`
the C division truncating toward zero. -/
theorem freqToTicks_encodes (d : ClockDivider) (f : Int)
    (hlo : minFreq d ≤ f) (hhi : f ≤ maxFreq d) :
    ∃ r : Nat, ticksOf d f = some r ∧ r < 65536 ∧
      1 ≤ (base d).tdiv f ∧ (base d).tdiv f ≤ 65536 ∧
      ((r : Int) + (base d).tdiv f) % 65536 = 0 := by
  have hf : 0 < f := lt_of_lt_of_le (minFreq_pos d) hlo
  obtain ⟨h1, h2⟩ := quot_bounds d f hlo hhi
  rw [Int.tdiv_eq_ediv (base_nonneg d) (le_of_lt hf)]
  refine ⟨toU16 (-(base d / f)), ticksOf_pos d f hf, ?_, h1, h2, ?_⟩
  · unfold toU16; omega
  · unfold toU16; omega

/-- Witness of C1: divider 1 at 16000 Hz. -/
theorem freqToTicks_encodes_witness :
    minFreq .ClockDivider_1 ≤ 16000 ∧ 16000 ≤ maxFreq .ClockDivider_1 ∧
    ∃ r : Nat, ticksOf .ClockDivider_1 16000 = some r ∧ r < 65536 ∧
      1 ≤ (base .ClockDivider_1).tdiv 16000 ∧ (base .ClockDivider_1).tdiv 16000 ≤ 65536 ∧
      ((r : Int) + (base .ClockDivider_1).tdiv 16000) % 65536 = 0 :=
  ⟨by decide, by decide, freqToTicks_encodes .ClockDivider_1 16000 (by decide) (by decide)⟩

/-- C2: round trip. Inside the documented range, with `r` the returned reload
value, `p = 65536 - r` the ticks until overflow (1..65536) and `f' = B / p` the
implied frequency, converting `f'` returns `r` again. -/
theorem freqToTicks_roundtrip (d : ClockDivider) (f : Int)
    (hlo : minFreq d ≤ f) (hhi : f ≤ maxFreq d) :
    ∃ r : Nat, ticksOf d f = some r ∧
      1 ≤ (65536 : Int) - r ∧ (65536 : Int) - r ≤ 65536 ∧
      ticksOf d ((base d).tdiv (65536 - r)) = some r := by
  have hf : 0 < f := lt_of_lt_of_le (minFreq_pos d) hlo
  obtain ⟨h1, h2⟩ := quot_bounds d f hlo hhi
  have hp : (65536 : Int) - (toU16 (-(base d / f)) : Nat) = base d / f := by
    unfold toU16; omega
  refine ⟨toU16 (-(base d / f)), ticksOf_pos d f hf, ?_, ?_, ?_⟩
  · rw [hp]; exact h1
  · rw [hp]; exact h2
  · rw [hp, Int.tdiv_eq_ediv (base_nonneg d) (by omega)]
    obtain ⟨h3, h4⟩ := div_div_div (base d) f (base_nonneg d) hf (by omega)
    rw [ticksOf_pos d _ (lt_of_lt_of_le hf h3), h4]

/-- Witness of C2: divider 64 at 1000 Hz. -/
theorem freqToTicks_roundtrip_witness :
    minFreq .ClockDivider_64 ≤ 1000 ∧ 1000 ≤ maxFreq .ClockDivider_64 ∧
    ∃ r : Nat, ticksOf .ClockDivider_64 1000 = some r ∧
      1 ≤ (65536 : Int) - r ∧ (65536 : Int) - r ≤ 65536 ∧
      ticksOf .ClockDivider_64 ((base .ClockDivider_64).tdiv (65536 - r)) = some r :=
  ⟨by decide, by decide, freqToTicks_roundtrip .ClockDivider_64 1000 (by decide) (by decide)⟩

/-- C3, as stated, fails: with divider 1 the frequencies 512 <= 513 both lie in
the documented range, the reload value at 512 Hz is 0 (65536 ticks), whose
magnitude `(65536 - r) mod 65536` is 0, and the magnitude at 513 Hz is 65408. -/
theorem magnitude_not_monotone_at_min :
    minFreq .ClockDivider_1 ≤ 512 ∧ (512 : Int) ≤ 513 ∧ 513 ≤ maxFreq .ClockDivider_1 ∧
    timerFreqToTicks_1 512 = some 0 ∧ timerFreqToTicks_1 513 = some 128 ∧
    magnitude 0 = 0 ∧ magnitude 128 = 65408 ∧ ¬ (magnitude 128 ≤ magnitude 0) := by
  decide

/-- C3, amended: for frequencies `f1 ≤ f2` in the documented range the number
of ticks until overflow `65536 - r` (1..65536) at `f2` is at most that at `f1`;
the magnitude `(65536 - r) mod 65536` at `f2` is at most that at `f1` whenever
`f1` is above the documented minimum, and for the divider 1024 on the whole
range. -/
theorem magnitude_antitone (d : ClockDivider) (f1 f2 : Int)
    (hlo : minFreq d ≤ f1) (h12 : f1 ≤ f2) (hhi : f2 ≤ maxFreq d) :
    ∃ r1 r2 : Nat, ticksOf d f1 = some r1 ∧ ticksOf d f2 = some r2 ∧
      65536 - r2 ≤ 65536 - r1 ∧
      (minFreq d < f1 ∨ d = .ClockDivider_1024 → magnitude r2 ≤ magnitude r1) := by
  have hf1 : 0 < f1 := lt_of_lt_of_le (minFreq_pos d) hlo
  have hf2 : 0 < f2 := lt_of_lt_of_le hf1 h12
  obtain ⟨a1, a2⟩ := quot_bounds d f1 hlo (le_trans h12 hhi)
  obtain ⟨b1, b2⟩ := quot_bounds d f2 (le_trans hlo h12) hhi
  have hmono := div_antitone (base d) f1 f2 (base_nonneg d) hf1 h12
  refine ⟨toU16 (-(base d / f1)), toU16 (-(base d / f2)), ticksOf_pos d f1 hf1,
    ticksOf_pos d f2 hf2, ?_, ?_⟩
  · unfold toU16; omega
  · intro h
    have hlt : base d / f1 < 65536 := by
      apply Int.ediv_lt_of_lt_mul hf1
      rcases h with h | h
      · cases d <;> simp only [base, minFreq] at * <;> omega
      · subst h; simp only [base, minFreq] at *; omega
    unfold magnitude toU16; omega

/-- Witness of C3 (amended): divider 1 at 513 Hz and 1000 Hz. -/
theorem magnitude_antitone_witness :
    minFreq .ClockDivider_1 ≤ 513 ∧ (513 : Int) ≤ 1000 ∧ 1000 ≤ maxFreq .ClockDivider_1 ∧
    ∃ r1 r2 : Nat, ticksOf .ClockDivider_1 513 = some r1 ∧
      ticksOf .ClockDivider_1 1000 = some r2 ∧ 65536 - r2 ≤ 65536 - r1 ∧
      (minFreq .ClockDivider_1 < 513 ∨ ClockDivider.ClockDivider_1 = .ClockDivider_1024 →
        magnitude r2 ≤ magnitude r1) :=
  ⟨by decide, by decide, by decide,
    magnitude_antitone .ClockDivider_1 513 1000 (by decide) (by decide) (by decide)⟩

/-- C6: for every frequency `f > 0` and every divider, the macro of that
divider applied to `f` equals `-(0x2000000 / (f * divider))`, the formula
documented for `TIMER_DATA`, with C division truncating toward zero. -/
theorem macro_eq_documented_formula (d : ClockDivider) (f : Int) (hf : 0 < f) :
    macroOf d f = some (-((0x2000000 : Int).tdiv (f * factor d))) := by
  have key : ∀ k B : Int, 0 < k → (0x2000000 : Int) / k = B → B < 2147483648 →
      cdiv (-B) f = some (-((0x2000000 : Int).tdiv (f * k))) := by
    intro k B hk hB hB2
    have hB0 : 0 ≤ B := by rw [← hB]; exact Int.ediv_nonneg (by decide) (le_of_lt hk)
    rw [cdiv_neg_pos B f hB0 hB2 hf,
      Int.tdiv_eq_ediv (by decide) (le_of_lt (mul_pos hf hk)), ← hB, mul_comm f k,
      int_div_div _ k f (by decide) (le_of_lt hk) (le_of_lt hf)]
  cases d
  · exact key 1 0x2000000 (by decide) (by decide) (by decide)
  · show cdiv (-(Int.shiftRight 0x2000000 6)) f = _
    have : Int.shiftRight 0x2000000 6 = 0x80000 := by decide
    rw [this]; exact key 64 0x80000 (by decide) (by decide) (by decide)
  · show cdiv (-(Int.shiftRight 0x2000000 8)) f = _
    have : Int.shiftRight 0x2000000 8 = 0x20000 := by decide
    rw [this]; exact key 256 0x20000 (by decide) (by decide) (by decide)
  · show cdiv (-(Int.shiftRight 0x2000000 10)) f = _
    have : Int.shiftRight 0x2000000 10 = 0x8000 := by decide
    rw [this]; exact key 1024 0x8000 (by decide) (by decide) (by decide)

/-- Witness of C6: `TIMER_FREQ_256(1000)`. -/
theorem macro_eq_documented_formula_witness :
    (0 : Int) < 1000 ∧
    macroOf .ClockDivider_256 1000 =
      some (-((0x2000000 : Int).tdiv (1000 * factor .ClockDivider_256))) :=
  ⟨by decide, macro_eq_documented_formula .ClockDivider_256 1000 (by decide)⟩

/-- C8: for a positive frequency outside the documented range of a divider the
conversion still returns a value `r`, and `r` does not encode `B / f` ticks
(`65536 - r ≠ B / f`); above the documented maximum `r = 0`, below the
documented minimum `B / f > 65536` and `r` is `-(B / f)` reduced modulo 65536. -/
theorem freqToTicks_out_of_range (d : ClockDivider) (f : Int) (hf : 0 < f)
    (hout : f < minFreq d ∨ maxFreq d < f) :
    ∃ r : Nat, ticksOf d f = some r ∧ r < 65536 ∧
      (65536 : Int) - r ≠ (base d).tdiv f ∧
      (maxFreq d < f → r = 0) ∧
      (f < minFreq d → 65536 < (base d).tdiv f ∧
        (r : Int) = (-((base d).tdiv f)) % 65536) := by
  rw [Int.tdiv_eq_ediv (base_nonneg d) (le_of_lt hf)]
  have hhi : maxFreq d < f → base d / f = 0 := by
    intro h
    apply Int.ediv_eq_zero_of_lt (base_nonneg d)
    cases d <;> simp only [base, maxFreq] at * <;> omega
  have hlo : f < minFreq d → 65536 < base d / f := by
    intro h
    have : 65537 ≤ base d / f := by
      apply Int.le_ediv_of_mul_le hf
      cases d <;> simp only [base, minFreq] at * <;> omega
    omega
  refine ⟨toU16 (-(base d / f)), ticksOf_pos d f hf, ?_, ?_, ?_, ?_⟩
  · unfold toU16; omega
  · rcases hout with h | h
    · have := hlo h
      unfold toU16; omega
    · have := hhi h
      unfold toU16; omega
  · intro h
    have := hhi h
    unfold toU16; omega
  · intro h
    refine ⟨hlo h, ?_⟩
    unfold toU16; omega

/-- Witness of C8: divider 1 at 100 Hz, below the documented minimum. -/
theorem freqToTicks_out_of_range_witness :
    (0 : Int) < 100 ∧ (100 < minFreq .ClockDivider_1 ∨ maxFreq .ClockDivider_1 < 100) ∧
    ∃ r : Nat, ticksOf .ClockDivider_1 100 = some r ∧ r < 65536 ∧
      (65536 : Int) - r ≠ (base .ClockDivider_1).tdiv 100 ∧
      (maxFreq .ClockDivider_1 < 100 → r = 0) ∧
      (100 < minFreq .ClockDivider_1 → 65536 < (base .ClockDivider_1).tdiv 100 ∧
        (r : Int) = (-((base .ClockDivider_1).tdiv 100)) % 65536) :=
  ⟨by decide, by decide,
    freqToTicks_out_of_range .ClockDivider_1 100 (by decide) (by decide)⟩

/-- C10: for every non-zero frequency the inline function and the macro of the
same divider both return, and the function's result is the macro's result
reduced modulo 65536. -/
theorem function_eq_macro (d : ClockDivider) (f : Int) (hf : f ≠ 0) :
    ∃ v : Int, macroOf d f = some v ∧ ticksOf d f = some (toU16 v) := by
  have key : ∀ a : Int, a ≠ INT_MIN →
      ∃ v : Int, cdiv a f = some v ∧ (cdiv a f).map toU16 = some (toU16 v) := by
    intro a ha
    have h : ¬ (f = 0 ∨ (a = INT_MIN ∧ f = -1)) := by
      rintro (h | ⟨h, _⟩)
      · exact hf h
      · exact ha h
    refine ⟨a.tdiv f, ?_, ?_⟩ <;> simp only [cdiv, if_neg h, Option.map]
  cases d
  · exact key (-0x2000000) (by decide)
  · have e : Int.shiftRight (-0x2000000) 6 = -(Int.shiftRight 0x2000000 6) := by decide
    show ∃ v, cdiv (-(Int.shiftRight 0x2000000 6)) f = some v ∧
      (cdiv (Int.shiftRight (-0x2000000) 6) f).map toU16 = some (toU16 v)
    rw [e]; exact key _ (by decide)
  · have e : Int.shiftRight (-0x2000000) 8 = -(Int.shiftRight 0x2000000 8) := by decide
    show ∃ v, cdiv (-(Int.shiftRight 0x2000000 8)) f = some v ∧
      (cdiv (Int.shiftRight (-0x2000000) 8) f).map toU16 = some (toU16 v)
    rw [e]; exact key _ (by decide)
  · have e : Int.shiftRight (-0x2000000) 10 = -(Int.shiftRight 0x2000000 10) := by decide
    show ∃ v, cdiv (-(Int.shiftRight 0x2000000 10)) f = some v ∧
      (cdiv (Int.shiftRight (-0x2000000) 10) f).map toU16 = some (toU16 v)
    rw [e]; exact key _ (by decide)

/-- Witness of C10: divider 64 at the negative frequency -3. -/
theorem function_eq_macro_witness :
    (-3 : Int) ≠ 0 ∧
    ∃ v : Int, macroOf .ClockDivider_64 (-3) = some v ∧
      ticksOf .ClockDivider_64 (-3) = some (toU16 v) :=
  ⟨by decide, function_eq_macro .ClockDivider_64 (-3) (by decide)⟩

/-! ## Timer registers: the properties -/

/-- C4: for every channel 0..3 and every memory, `timerStart` twice leaves the
state `timerStart` once leaves (bit 7 of `TIMER_CR(c)` set), `timerStop` twice
leaves the state `timerStop` once leaves (bit 7 clear), `timerStart` on a
running timer changes nothing and `timerStop` on a stopped timer changes
nothing. -/
theorem timerStart_timerStop_idempotent (c : Nat) (_hc : c ≤ 3) (m : Mem) :
    timerStart (timerStart m c) c = timerStart m c ∧
    timerStop (timerStop m c) c = timerStop m c ∧
    (load16 (timerStart m c) (TIMER_CR c)).testBit 7 = true ∧
    (load16 (timerStop m c) (TIMER_CR c)).testBit 7 = false ∧
    ((load16 m (TIMER_CR c)).testBit 7 = true → timerStart m c = m) ∧
    ((load16 m (TIMER_CR c)).testBit 7 = false → timerStop m c = m) := by
  have hx := load16_lt m (TIMER_CR c)
  refine ⟨?_, ?_, ?_, ?_, ?_, ?_⟩
  · have h := cr_read_after_start m c
    show store16 (timerStart m c) (TIMER_CR c)
      (load16 (timerStart m c) (TIMER_CR c) ||| TIMER_ENABLE) = timerStart m c
    rw [h, Nat.or_assoc, Nat.or_self]
    unfold timerStart
    rw [store16_store16]
  · have h := cr_read_after_stop m c
    show store16 (timerStop m c) (TIMER_CR c)
      (load16 (timerStop m c) (TIMER_CR c) &&& not32 TIMER_ENABLE) = timerStop m c
    rw [h, Nat.and_assoc, Nat.and_self]
    unfold timerStop
    rw [store16_store16]
  · rw [cr_read_after_start, or_enable_testBit]; simp
  · rw [cr_read_after_stop, and_mask_testBit _ _ hx]; simp
  · intro h7
    have e : load16 m (TIMER_CR c) ||| TIMER_ENABLE = load16 m (TIMER_CR c) := by
      apply Nat.eq_of_testBit_eq
      intro i
      rw [or_enable_testBit]
      by_cases hi : i = 7
      · subst hi; simp [h7]
      · simp [hi]
    unfold timerStart
    rw [e, store16_load16]
  · intro h7
    have e : load16 m (TIMER_CR c) &&& not32 TIMER_ENABLE = load16 m (TIMER_CR c) := by
      apply Nat.eq_of_testBit_eq
      intro i
      rw [and_mask_testBit _ _ hx]
      by_cases hi : i = 7
      · subst hi; simp [h7]
      · simp [hi]
    unfold timerStop
    rw [e, store16_load16]

/-- Witness of C4: channel 2 on the all-zero memory. -/
theorem timerStart_timerStop_idempotent_witness :
    (2 : Nat) ≤ 3 ∧
    timerStart (timerStart zeroMem 2) 2 = timerStart zeroMem 2 ∧
    timerStop (timerStop zeroMem 2) 2 = timerStop zeroMem 2 ∧
    (load16 (timerStart zeroMem 2) (TIMER_CR 2)).testBit 7 = true ∧
    (load16 (timerStop zeroMem 2) (TIMER_CR 2)).testBit 7 = false ∧
    ((load16 zeroMem (TIMER_CR 2)).testBit 7 = true → timerStart zeroMem 2 = zeroMem) ∧
    ((load16 zeroMem (TIMER_CR 2)).testBit 7 = false → timerStop zeroMem 2 = zeroMem) :=
  ⟨by decide, timerStart_timerStop_idempotent 2 (by decide) zeroMem⟩

/-- C7: for every channel `c` in 0..3 and every memory, after `timerStart(c)`
or `timerStop(c)` every bit of `TIMER_CR(c)` other than bit 7 is unchanged,
`TIMER_DATA(c)` is unchanged, `TIMER_DATA(k)` and `TIMER_CR(k)` of every other
channel are unchanged, and so is every byte outside `TIMER_CR(c)`; bit 7 is 1
after `timerStart` and 0 after `timerStop`. -/
theorem timerStart_timerStop_frame (c : Nat) (_hc : c ≤ 3) (m : Mem) :
    (∀ m2 : Mem, m2 = timerStart m c ∨ m2 = timerStop m c →
      (∀ i, i ≠ 7 →
        (load16 m2 (TIMER_CR c)).testBit i = (load16 m (TIMER_CR c)).testBit i) ∧
      load16 m2 (TIMER_DATA c) = load16 m (TIMER_DATA c) ∧
      (∀ k, k ≤ 3 → k ≠ c →
        load16 m2 (TIMER_DATA k) = load16 m (TIMER_DATA k) ∧
        load16 m2 (TIMER_CR k) = load16 m (TIMER_CR k)) ∧
      (∀ a, a ≠ TIMER_CR c → a ≠ TIMER_CR c + 1 → m2 a = m a)) ∧
    (load16 (timerStart m c) (TIMER_CR c)).testBit 7 = true ∧
    (load16 (timerStop m c) (TIMER_CR c)).testBit 7 = false := by
  have hx := load16_lt m (TIMER_CR c)
  refine ⟨?_, ?_, ?_⟩
  · intro m2 hm2
    have hstore : ∃ v, m2 = store16 m (TIMER_CR c) v := by
      rcases hm2 with h | h
      · exact ⟨_, h⟩
      · exact ⟨_, h⟩
    obtain ⟨v, hv⟩ := hstore
    refine ⟨?_, ?_, ?_, ?_⟩
    · intro i hi
      rcases hm2 with h | h
      · rw [h, cr_read_after_start, or_enable_testBit]; simp [hi]
      · rw [h, cr_read_after_stop, and_mask_testBit _ _ hx]; simp [hi]
    · rw [hv]; exact load16_store16_other m _ _ v (cr_disjoint_data c c)
    · intro k _ hkc
      rw [hv]
      exact ⟨load16_store16_other m _ _ v (cr_disjoint_data c k),
        load16_store16_other m _ _ v (cr_disjoint_cr c k hkc)⟩
    · intro a h1 h2
      rw [hv]; exact store16_frame m _ v a h1 h2
  · rw [cr_read_after_start, or_enable_testBit]; simp
  · rw [cr_read_after_stop, and_mask_testBit _ _ hx]; simp

/-- Witness of C7: channel 1 on the all-zero memory. -/
theorem timerStart_timerStop_frame_witness :
    (1 : Nat) ≤ 3 ∧
    ((∀ m2 : Mem, m2 = timerStart zeroMem 1 ∨ m2 = timerStop zeroMem 1 →
      (∀ i, i ≠ 7 →
        (load16 m2 (TIMER_CR 1)).testBit i = (load16 zeroMem (TIMER_CR 1)).testBit i) ∧
      load16 m2 (TIMER_DATA 1) = load16 zeroMem (TIMER_DATA 1) ∧
      (∀ k, k ≤ 3 → k ≠ 1 →
        load16 m2 (TIMER_DATA k) = load16 zeroMem (TIMER_DATA k) ∧
        load16 m2 (TIMER_CR k) = load16 zeroMem (TIMER_CR k)) ∧
      (∀ a, a ≠ TIMER_CR 1 → a ≠ TIMER_CR 1 + 1 → m2 a = zeroMem a)) ∧
    (load16 (timerStart zeroMem 1) (TIMER_CR 1)).testBit 7 = true ∧
    (load16 (timerStop zeroMem 1) (TIMER_CR 1)).testBit 7 = false) :=
  ⟨by decide, timerStart_timerStop_frame 1 (by decide) zeroMem⟩

/-- C9: for every `n` in 0..3, `TIMER_DATA(n)` addresses `0x04000100 + 4n` and
`TIMER_CR(n)` addresses `0x04000102 + 4n`; these are the addresses of the named
registers `TIMERn_DATA` and `TIMERn_CR`; and the eight 16-bit registers occupy
pairwise disjoint byte ranges. -/
theorem timer_register_addresses (n : Nat) (_hn : n ≤ 3) :
    TIMER_DATA n = 0x04000100 + 4 * n ∧ TIMER_CR n = 0x04000102 + 4 * n ∧
    (TIMER_DATA 0 = TIMER0_DATA ∧ TIMER_DATA 1 = TIMER1_DATA ∧
      TIMER_DATA 2 = TIMER2_DATA ∧ TIMER_DATA 3 = TIMER3_DATA) ∧
    (TIMER_CR 0 = TIMER0_CR ∧ TIMER_CR 1 = TIMER1_CR ∧
      TIMER_CR 2 = TIMER2_CR ∧ TIMER_CR 3 = TIMER3_CR) ∧
    disjoint16 (TIMER_DATA n) (TIMER_CR n) ∧
    (∀ k, k ≤ 3 → k ≠ n →
      disjoint16 (TIMER_DATA n) (TIMER_DATA k) ∧ disjoint16 (TIMER_DATA n) (TIMER_CR k) ∧
      disjoint16 (TIMER_CR n) (TIMER_DATA k) ∧ disjoint16 (TIMER_CR n) (TIMER_CR k)) := by
  refine ⟨?_, ?_, by decide, by decide, data_disjoint_cr n n, ?_⟩
  · unfold TIMER_DATA; simp only [Nat.shiftLeft_eq]; omega
  · unfold TIMER_CR; simp only [Nat.shiftLeft_eq]; omega
  · intro k _ hk
    exact ⟨data_disjoint_data n k hk, data_disjoint_cr n k, cr_disjoint_data n k,
      cr_disjoint_cr n k hk⟩

/-- Witness of C9: channel 3. -/
theorem timer_register_addresses_witness :
    (3 : Nat) ≤ 3 ∧
    (TIMER_DATA 3 = 0x04000100 + 4 * 3 ∧ TIMER_CR 3 = 0x04000102 + 4 * 3 ∧
    (TIMER_DATA 0 = TIMER0_DATA ∧ TIMER_DATA 1 = TIMER1_DATA ∧
      TIMER_DATA 2 = TIMER2_DATA ∧ TIMER_DATA 3 = TIMER3_DATA) ∧
    (TIMER_CR 0 = TIMER0_CR ∧ TIMER_CR 1 = TIMER1_CR ∧
      TIMER_CR 2 = TIMER2_CR ∧ TIMER_CR 3 = TIMER3_CR) ∧
    disjoint16 (TIMER_DATA 3) (TIMER_CR 3) ∧
    (∀ k, k ≤ 3 → k ≠ 3 →
      disjoint16 (TIMER_DATA 3) (TIMER_DATA k) ∧ disjoint16 (TIMER_DATA 3) (TIMER_CR k) ∧
      disjoint16 (TIMER_CR 3) (TIMER_DATA k) ∧ disjoint16 (TIMER_CR 3) (TIMER_CR k))) :=
  ⟨by decide, timer_register_addresses 3 (by decide)⟩

/-! ## Sound channel control word: the property -/

/-- C5: for volume and pan in 0..127 the fields of the control word
`SCHANNEL_ENABLE | SOUND_16BIT | SOUND_ONE_SHOT | SOUND_VOL(v) | SOUND_PAN(p)`
share no bit, the word fits in 32 bits, bits 31, 29 and 28 are set, bit 27 is clear, bits 0..6 are `v`,
bits 16..22 are `p`, the word is the sum of its fields, and for `v = 100`,
`p = 64` it is `0xB0400064`. -/
theorem controlWord_layout (v p : Nat) (hv : v ≤ 127) (hp : p ≤ 127) :
    List.Pairwise (fun a b => a &&& b = 0)
      [SCHANNEL_ENABLE, SOUND_16BIT, SOUND_ONE_SHOT, SOUND_VOL v, SOUND_PAN p] ∧
    controlWord v p < 4294967296 ∧
    (controlWord v p).testBit 31 = true ∧
    (controlWord v p).testBit 29 = true ∧
    (controlWord v p).testBit 28 = true ∧
    (controlWord v p).testBit 27 = false ∧
    controlWord v p % 128 = v ∧
    (controlWord v p >>> 16) % 128 = p ∧
    controlWord v p =
      SCHANNEL_ENABLE + SOUND_16BIT + SOUND_ONE_SHOT + SOUND_VOL v + SOUND_PAN p ∧
    controlWord 100 64 = 0xB0400064 := by
  have hw : controlWord v p = 2952790016 + v + 65536 * p := by
    unfold controlWord
    exact or_fields_eq_sum v p hv hp
  have hP : SOUND_PAN p = 2 ^ 16 * p := by
    unfold SOUND_PAN; rw [Nat.shiftLeft_eq, Nat.mul_comm]
  have hE : SCHANNEL_ENABLE = 2 ^ 31 * 1 := by decide
  have hS : SOUND_16BIT = 2 ^ 29 * 1 := by decide
  have hO : SOUND_ONE_SHOT = 2 ^ 28 * 1 := by decide
  refine ⟨?_, by omega, ?_, ?_, ?_, ?_, ?_, ?_, ?_, ?_⟩
  · simp only [List.pairwise_cons, List.mem_cons, List.mem_singleton, List.not_mem_nil,
      forall_eq_or_imp, forall_eq, List.Pairwise.nil, and_true, false_implies,
      implies_true, SOUND_VOL]
    refine ⟨⟨by decide, by decide, ?_, ?_⟩, ⟨by decide, ?_, ?_⟩, ⟨?_, ?_⟩, ?_⟩
    · rw [Nat.and_comm, hE]; exact and_eq_zero_of_lt v 1 31 (by omega)
    · rw [Nat.and_comm, hE]; exact and_eq_zero_of_lt _ 1 31 (by rw [hP]; omega)
    · rw [Nat.and_comm, hS]; exact and_eq_zero_of_lt v 1 29 (by omega)
    · rw [Nat.and_comm, hS]; exact and_eq_zero_of_lt _ 1 29 (by rw [hP]; omega)
    · rw [Nat.and_comm, hO]; exact and_eq_zero_of_lt v 1 28 (by omega)
    · rw [Nat.and_comm, hO]; exact and_eq_zero_of_lt _ 1 28 (by rw [hP]; omega)
    · rw [hP]; exact and_eq_zero_of_lt v p 16 (by omega)
  · rw [hw, Nat.testBit_to_div_mod]; simp only [decide_eq_true_eq]; omega
  · rw [hw, Nat.testBit_to_div_mod]; simp only [decide_eq_true_eq]; omega
  · rw [hw, Nat.testBit_to_div_mod]; simp only [decide_eq_true_eq]; omega
  · rw [hw, Nat.testBit_to_div_mod]; simp only [decide_eq_false_iff_not]; omega
  · rw [hw]; omega
  · rw [hw, Nat.shiftRight_eq_div_pow]; omega
  · rw [hw, hP]
    have : SCHANNEL_ENABLE + SOUND_16BIT + SOUND_ONE_SHOT = 2952790016 := by decide
    unfold SOUND_VOL; omega
  · decide

/-- Witness of C5: volume 100, pan 64. -/
theorem controlWord_layout_witness :
    (100 : Nat) ≤ 127 ∧ (64 : Nat) ≤ 127 ∧
    (List.Pairwise (fun a b => a &&& b = 0)
      [SCHANNEL_ENABLE, SOUND_16BIT, SOUND_ONE_SHOT, SOUND_VOL 100, SOUND_PAN 64] ∧
    controlWord 100 64 < 4294967296 ∧
    (controlWord 100 64).testBit 31 = true ∧
    (controlWord 100 64).testBit 29 = true ∧
    (controlWord 100 64).testBit 28 = true ∧
    (controlWord 100 64).testBit 27 = false ∧
    controlWord 100 64 % 128 = 100 ∧
    (controlWord 100 64 >>> 16) % 128 = 64 ∧
    controlWord 100 64 =
      SCHANNEL_ENABLE + SOUND_16BIT + SOUND_ONE_SHOT + SOUND_VOL 100 + SOUND_PAN 64 ∧
    controlWord 100 64 = 0xB0400064) :=
  ⟨by decide, by decide, controlWord_layout 100 64 (by decide) (by decide)⟩

end Libnds
